import Mathlib

/-!
Verification of `parser.py` (EngeeBlockDocumentationDownloader).

Text is modelled as `List Char` (Python strings index by code point).
Pure string operations of the source are translated directly; HTTP
transport, the HTML parser and the HTML→Markdown converter are external
collaborators (spec §1), so per-page inputs carry their outputs as data.
File writes are modelled by an event list plus success oracles, and
exceptions by `Except`.
-/

/-- Restriction of Python's `str.lower` to the character classes the
source manipulates: ASCII letters and the Cyrillic letters А..Я and Ё
(all literals in `parser.py` are ASCII or Cyrillic). -/
def pyLowerChar (c : Char) : Char :=
  if 'A' ≤ c ∧ c ≤ 'Z' then Char.ofNat (c.toNat + 32)
  else if 'А' ≤ c ∧ c ≤ 'Я' then Char.ofNat (c.toNat + 32)
  else if c = 'Ё' then Char.ofNat (c.toNat + 80)
  else c

/-- Python `text.lower()`. -/
def pyLower (t : List Char) : List Char := t.map pyLowerChar

/-- Python `str` whitespace (ASCII part), as used by `strip`/`rstrip`. -/
def isPySpace (c : Char) : Bool :=
  c == ' ' || c == '\t' || c == '\n' || c == '\r' ||
  c == Char.ofNat 11 || c == Char.ofNat 12

/-- Python `s.rstrip()`. -/
def pyRstrip (t : List Char) : List Char :=
  (t.reverse.dropWhile isPySpace).reverse

/-- Python `s.strip()`. -/
def pyStrip (t : List Char) : List Char :=
  pyRstrip (t.dropWhile isPySpace)

/-- Python substring test `w in t`. -/
def occursB (t w : List Char) : Bool :=
  match t with
  | [] => w.isPrefixOf []
  | _ :: rest => w.isPrefixOf t || occursB rest w

/-- Python `t.rfind(w)`: index of the last occurrence of `w` in `t`
(`none` for Python's `-1`). -/
def rfind (t w : List Char) : Option Nat :=
  match t with
  | [] => if w.isPrefixOf [] then some 0 else none
  | _ :: rest =>
    match rfind rest w with
    | some i => some (i + 1)
    | none => if w.isPrefixOf t then some 0 else none

/-- Drop the literal `lit` from the front of a text, if present. -/
def chopLit : List Char → List Char → Option (List Char)
  | [], t => some t
  | _ :: _, [] => none
  | p :: ps, c :: cs => if p = c then chopLit ps cs else none

/-- Fuel-driven core of Python `t.replace(pat, rep)` (non-overlapping,
left to right).  Fuel `t.length` suffices since every step consumes at
least one character; the `pat.isEmpty` guard is never taken for the
non-empty patterns appearing in the source. -/
def pyReplaceFuel (pat rep : List Char) : Nat → List Char → List Char
  | 0, t => t
  | _ + 1, [] => []
  | f + 1, c :: rest =>
    match chopLit pat (c :: rest) with
    | some r =>
      if pat.isEmpty then c :: pyReplaceFuel pat rep f rest
      else rep ++ pyReplaceFuel pat rep f r
    | none => c :: pyReplaceFuel pat rep f rest

/-- Python `t.replace(pat, rep)`. -/
def pyReplace (t pat rep : List Char) : List Char :=
  pyReplaceFuel pat rep t.length t

/-- Python `markdown_text.split("\n")[0]`: the text before the first
line break (the whole text if there is none). -/
def firstLine (t : List Char) : List Char :=
  t.takeWhile (fun c => !(c == '\n'))

/-- `block_name` of `__get_block_metadata` (parser.py line 80):
`markdown_text.split("\n")[0].replace("#", "").replace("/", "-").strip()`. -/
def blockName (t : List Char) : List Char :=
  pyStrip (pyReplace (pyReplace (firstLine t) ['#'] []) ['/'] ['-'])

/-- Literal prefix of the regex
`\[SVG Image\]\(data:image/svg\+xml;base64,[^)]+\)` (parser.py line 62);
the head is exposed so that non-`[` positions visibly fail to match. -/
def svgPre : List Char := '[' :: "SVG Image](data:image/svg+xml;base64,".toList

/-- Attempt to match the SVG-payload regex at the start of `cs`:
the literal prefix, then one or more non-`)` characters, then `)`.
Returns the remainder after the match. -/
def matchSvgAt (cs : List Char) : Option (List Char) :=
  match chopLit svgPre cs with
  | none => none
  | some rest =>
    if (rest.takeWhile (fun c => !(c == ')'))).isEmpty then none
    else
      match rest.dropWhile (fun c => !(c == ')')) with
      | [] => none
      | _ :: tail => some tail

/-- Fuel-driven scan of `re.sub(removing_pattern, "", markdown_text)`:
leftmost non-overlapping matches are deleted. -/
def stripSvgF : Nat → List Char → List Char
  | 0, t => t
  | _ + 1, [] => []
  | f + 1, c :: rest =>
    match matchSvgAt (c :: rest) with
    | some tail => stripSvgF f tail
    | none => c :: stripSvgF f rest

/-- The binary-payload strip pass of `pretiffy_data`. -/
def stripSvg (t : List Char) : List Char := stripSvgF t.length t

/-- Decidable statement that the SVG regex matches nowhere in `t`. -/
def noSvg (t : List Char) : Bool :=
  (List.range t.length).all (fun i => (matchSvgAt (t.drop i)).isNone)

/-- `TARGET_WORDS` of `pretiffy_data` (parser.py line 64), in source
order. -/
def TARGET_WORDS : List (List Char) :=
  ["#дополнительные-возможности".toList,
   "дополнительные возможности".toList,
   "#примеры".toList,
   "примеры".toList,
   "#смотрите-также".toList,
   "смотрите также".toList]

/-- The truncation loop of `pretiffy_data` (parser.py lines 70-74):
for each word in order, if it occurs in the lowered text, `rfind` it in
the original text and cut there; when `rfind` misses (the word occurs
only in another letter case) the loop falls through to the next word. -/
def truncateLoop : List (List Char) → List Char → List Char
  | [], cs => cs
  | w :: ws, cs =>
    if occursB (pyLower cs) w then
      match rfind cs w with
      | some i => cs.take i
      | none => truncateLoop ws cs
    else truncateLoop ws cs

/-- `pretiffy_data` (parser.py lines 57-76). -/
def pretiffy_data (t : List Char) : List Char :=
  truncateLoop TARGET_WORDS (stripSvg t)

/-- Literal part of the path regex `Путь в библиотеке:<br>\s*(/[^|]+)`
(parser.py line 82). -/
def pathMarker : List Char := "Путь в библиотеке:<br>".toList

/-- Attempt to match the path regex at the start of `cs`, returning
capture group 1 (`/` followed by one or more non-`|` characters). -/
def matchPathAt (cs : List Char) : Option (List Char) :=
  match chopLit pathMarker cs with
  | none => none
  | some rest =>
    match rest.dropWhile (fun c => isPySpace c) with
    | '/' :: after =>
      let payload := after.takeWhile (fun c => !(c == '|'))
      if payload.isEmpty then none else some ('/' :: payload)
    | _ => none

/-- `re.search` of the path regex: leftmost starting position wins. -/
def searchPath (t : List Char) : Option (List Char) :=
  match t with
  | [] => matchPathAt []
  | _ :: rest =>
    match matchPathAt t with
    | some p => some p
    | none => searchPath rest

structure BlockMetadata where
  block_name : List Char
  block_path : List Char
deriving DecidableEq

/-- `__get_block_metadata` (parser.py lines 78-88): `none` models the
`AttributeError` raised by `.group(1)` on a failed `re.search`. -/
def get_block_metadata (t : List Char) : Option BlockMetadata :=
  match searchPath t with
  | none => none
  | some p => some ⟨blockName t, p⟩

/-- `self.__doc_dir` (parser.py line 34). -/
def doc_dir : List Char := "documentation/".toList

/-- `metadata.get("block_path").replace("/", ".")` (parser.py line 91). -/
def stemOf (block_path : List Char) : List Char :=
  pyReplace block_path ['/'] ['.']

/-- Path of the metadata file (parser.py line 93). -/
def json_filename (block_path : List Char) : List Char :=
  doc_dir ++ pyRstrip (stemOf block_path) ++ ".json".toList

/-- Path of the Markdown content file (parser.py line 108). -/
def md_filename (block_path : List Char) : List Char :=
  doc_dir ++ pyRstrip (stemOf block_path) ++ ".md".toList

inductive WriteEvent where
  | json (path : List Char)
  | md (path : List Char)
deriving DecidableEq

/-- Exceptions that can escape a page task: `AttributeError` from
`.group(1)` on `None`, `ValueError` from `__save_block_metadata`, and
an uncaught I/O error on the metadata write. -/
inductive PageError where
  | attributeError
  | valueError
  | ioError
deriving DecidableEq

/-- `__save_block_metadata` (parser.py lines 90-96).  `jsonOk` is the
oracle for the (uncaught) metadata file write. -/
def save_block_metadata (m : BlockMetadata) (jsonOk : Bool) :
    Except PageError (List WriteEvent) :=
  if (stemOf m.block_path).isEmpty then .error .valueError
  else if jsonOk then .ok [.json (json_filename m.block_path)]
  else .error .ioError

/-- `__save_md` (parser.py lines 98-112), taking the converter output
`markdown_text` (the HTML→Markdown engine is an external collaborator).
Only the content-file write sits inside `try`, so its failure becomes
the boolean `false`; everything before it can raise. -/
def save_md (markdown_text : List Char) (jsonOk mdOk : Bool) :
    Except PageError (List WriteEvent × Bool) :=
  let markdown := pretiffy_data markdown_text
  match get_block_metadata markdown with
  | none => .error .attributeError
  | some m =>
    match save_block_metadata m jsonOk with
    | .error e => .error e
    | .ok evs =>
      if mdOk then .ok (evs ++ [.md (md_filename m.block_path)], true)
      else .ok (evs, false)

/-- Literal validated by `__validate_page` (parser.py line 117). -/
def path_in_library : List Char := "путь в библиотеке".toList

/-- `__validate_page` (parser.py lines 114-122) on the page's text. -/
def validate_page (blocked : List (List Char)) (text : List Char) : Bool :=
  let body := pyLower text
  if occursB body path_in_library then
    if blocked.any (fun b => occursB body b) then false else true
  else false

/-- One fetched page: HTTP status, the article's text content (the
article element is assumed present, as the code assumes), the
converter's Markdown output for it, and write-success oracles. -/
structure Page where
  status : Nat
  text : List Char
  markdown_text : List Char
  jsonOk : Bool
  mdOk : Bool
deriving DecidableEq

/-- `catch_and_convert` (parser.py lines 138-153). -/
def catch_and_convert (blocked : List (List Char)) (p : Page) :
    Except PageError Bool :=
  if p.status = 200 then
    if validate_page blocked p.text then
      match save_md p.markdown_text p.jsonOk p.mdOk with
      | .error e => .error e
      | .ok (_, b) => .ok b
    else .ok false
  else .ok false

/-- `asyncio.gather(*tasks)` with the default `return_exceptions=False`:
if any task raises, the awaiting coroutine raises instead of producing
the result list.  Which exception surfaces depends on completion order;
it is modelled as list order, and whether some exception propagates is
order-independent. -/
def gather (blocked : List (List Char)) : List Page → Except PageError (List Bool)
  | [] => .ok []
  | p :: ps =>
    match catch_and_convert blocked p with
    | .error e => .error e
    | .ok b =>
      match gather blocked ps with
      | .error e => .error e
      | .ok bs => .ok (b :: bs)

/-- The tail of `main` (parser.py lines 159-163): gather all page tasks
and report `(results.count(True), len(results))`. -/
def gather_main (blocked : List (List Char)) (pages : List Page) :
    Except PageError (Nat × Nat) :=
  match gather blocked pages with
  | .error e => .error e
  | .ok rs => .ok (rs.count true, rs.length)

/-- `parse_links` (parser.py lines 124-136): on a 200 response with an
article present it stores the page's links and returns `true`;
otherwise it stores nothing and returns `false`. -/
def parse_links (status : Nat) (hasArticle : Bool)
    (links : List (List Char)) : Bool × List (List Char) :=
  if status = 200 ∧ hasArticle then (true, links) else (false, [])

/-- The index fetch: HTTP status, whether the article region parses,
and the links it holds. -/
structure IndexFetch where
  status : Nat
  hasArticle : Bool
  links : List (List Char)

/-- `main` (parser.py lines 155-163): `parse_links`' return value is
ignored; the gathered tasks run over whatever links were stored. -/
def run_main (blocked : List (List Char)) (idx : IndexFetch)
    (fetchPage : List Char → Page) : Except PageError (Nat × Nat) :=
  gather_main blocked ((parse_links idx.status idx.hasArticle idx.links).2.map fetchPage)

/-- `self.__blocked_libs` right after `__init__` (parser.py line 33). -/
def init_blocked_libs : List (List Char) := []

/-- The list `set_blocked_libs` would store (parser.py lines 39-43). -/
def set_blocked_libs_result : List (List Char) :=
  ["/interfaces/".toList, "/ritm/".toList]

/-- The blocked list in effect for the run launched by `__main__`
(parser.py lines 166-174): the entry point constructs the parser and
runs `main` without ever calling `set_blocked_libs`, so the list stays
as `__init__` left it. -/
def entry_point_blocked_libs : List (List Char) := init_blocked_libs

/-- Spec-side truncation written from the amended wording of the
boilerplate-truncation rule: cut at the last exact (case-sensitive)
occurrence of the first phrase, in priority order, that occurs exactly
in the text; if no phrase occurs exactly, leave the text unchanged. -/
def truncateSpecSensitive : List (List Char) → List Char → List Char
  | [], cs => cs
  | w :: ws, cs =>
    match rfind cs w with
    | some i => cs.take i
    | none => truncateSpecSensitive ws cs

/-- Spec-side `block_name` written from the claim's words: text before
the first line break with all `#` and `/` characters stripped, then
trimmed. -/
def spec_block_name_strip (t : List Char) : List Char :=
  pyStrip ((firstLine t).filter (fun c => !(c == '#') && !(c == '/')))

/-- An SVG image data block of the shape the removing pattern matches:
the literal prefix, a payload, and the closing parenthesis. -/
def svgBlockOf (payload : List Char) : List Char :=
  svgPre ++ payload ++ [')']

/-- Input for the truncation-priority counterexample: an "examples"
marker present only with a capital letter, followed by an exact
"see also" marker. -/
def c1input : List Char := "Примеры x смотрите также y".toList

/-- The metadata round-trip input of the spec, with the source's actual
Russian literal in place of the spec's English gloss of it. -/
def c6input : List Char :=
  "# Sum Block\n...Путь в библиотеке:<br> /Operations/Math |other text".toList

/-- A page that passes validation but whose converted Markdown lacks
the library-path marker, so metadata extraction raises. -/
def badPage : Page :=
  ⟨200, "путь в библиотеке".toList, "# X\nbody".toList, true, true⟩

/-- A page that processes successfully end to end. -/
def goodPage : Page :=
  ⟨200, "путь в библиотеке x".toList,
   "# Y\nПуть в библиотеке:<br> /a/y |z".toList, true, true⟩

/-- Text of a page that belongs to the interfaces library. -/
def c7text : List Char :=
  "блок. путь в библиотеке:<br> /interfaces/serial |".toList

/-- A fetched page from the interfaces library. -/
def c7page : Page :=
  ⟨200, c7text,
   "# UART\nПуть в библиотеке:<br> /interfaces/serial |прочее".toList,
   true, true⟩

/-- An index fetch that failed with a 404 yet had links in its body. -/
def idx404 : IndexFetch := ⟨404, true, ["somepage.html".toList]⟩

/-- Converter output used by the write-order witness. -/
def c10md : List Char := "# B\nПуть в библиотеке:<br> /a/b |x".toList

/-- Metadata that `c10md` extracts to. -/
def c10meta : BlockMetadata := ⟨"B".toList, "/a/b ".toList⟩

/-! ## Helper lemmas -/

theorem isPrefixOf_map (f : Char → Char) :
    ∀ w t : List Char, w.isPrefixOf t = true →
      (w.map f).isPrefixOf (t.map f) = true := by
  intro w
  induction w with
  | nil => intro t _; simp [List.isPrefixOf]
  | cons a as ih =>
    intro t h
    cases t with
    | nil => simp [List.isPrefixOf] at h
    | cons b bs =>
      simp only [List.isPrefixOf, Bool.and_eq_true, beq_iff_eq] at h ⊢
      exact ⟨by rw [h.1], ih bs h.2⟩

theorem rfind_isPrefixOf :
    ∀ (t w : List Char) (i : Nat), rfind t w = some i →
      w.isPrefixOf (t.drop i) = true := by
  intro t
  induction t with
  | nil =>
    intro w i h
    simp only [rfind] at h
    split at h
    · rename_i hp
      cases h
      simpa using hp
    · exact absurd h (by simp)
  | cons c rest ih =>
    intro w i h
    simp only [rfind] at h
    cases hr : rfind rest w with
    | some j =>
      simp only [hr] at h
      cases h
      simpa using ih w j hr
    | none =>
      simp only [hr] at h
      split at h
      · rename_i hp
        cases h
        simpa using hp
      · exact absurd h (by simp)

theorem occursB_of_prefix_drop :
    ∀ (t : List Char) (i : Nat) (w : List Char),
      w.isPrefixOf (t.drop i) = true → occursB t w = true := by
  intro t
  induction t with
  | nil =>
    intro i w h
    simp only [List.drop_nil] at h
    simpa [occursB] using h
  | cons c rest ih =>
    intro i w h
    cases i with
    | zero =>
      simp only [List.drop_zero] at h
      simp [occursB, h]
    | succ i =>
      simp only [List.drop_succ_cons] at h
      simp [occursB, ih i w h]

theorem pyLower_drop (t : List Char) (i : Nat) :
    pyLower (t.drop i) = (pyLower t).drop i := by
  simp [pyLower, List.map_drop]

theorem occursB_pyLower_of_rfind (t w : List Char) (i : Nat)
    (hw : pyLower w = w) (h : rfind t w = some i) :
    occursB (pyLower t) w = true := by
  have h1 : w.isPrefixOf (t.drop i) = true := rfind_isPrefixOf t w i h
  have h2 : (pyLower w).isPrefixOf (pyLower (t.drop i)) = true :=
    isPrefixOf_map pyLowerChar w (t.drop i) h1
  rw [hw, pyLower_drop] at h2
  exact occursB_of_prefix_drop (pyLower t) i w h2

theorem truncateLoop_eq_sensitive :
    ∀ ws : List (List Char), (∀ w ∈ ws, pyLower w = w) →
      ∀ cs, truncateLoop ws cs = truncateSpecSensitive ws cs := by
  intro ws
  induction ws with
  | nil => intro _ cs; rfl
  | cons w ws ih =>
    intro hws cs
    have hw : pyLower w = w := hws w (List.mem_cons_self w ws)
    have hws' : ∀ w ∈ ws, pyLower w = w :=
      fun x hx => hws x (List.mem_cons_of_mem w hx)
    simp only [truncateLoop, truncateSpecSensitive]
    cases hr : rfind cs w with
    | some i =>
      rw [occursB_pyLower_of_rfind cs w i hw hr]
      simp [hr]
    | none =>
      cases ho : occursB (pyLower cs) w <;> simp [ho, hr, ih hws' cs]

/-! ## Claim theorems -/

/-- C1 (counterexample): the claim says the scan for marker phrases is
case-insensitive, so for `c1input` — whose first case-insensitively
occurring phrase is "примеры" ("examples", present only as "Примеры"
at position 0) followed by a later exact "смотрите также" ("see also")
at position 10 — the cut must be at an "examples" occurrence and never
at "see also".  The code instead cuts exactly at the last "смотрите
также" occurrence, because `rfind` on the original-case text misses
"примеры" and the loop falls through to the lower-priority phrase. -/
theorem c1_claim_counterexample :
    occursB (pyLower c1input) "примеры".toList = true ∧
    occursB (pyLower c1input) "#дополнительные-возможности".toList = false ∧
    occursB (pyLower c1input) "дополнительные возможности".toList = false ∧
    occursB (pyLower c1input) "#примеры".toList = false ∧
    rfind (pyLower c1input) "примеры".toList = some 0 ∧
    rfind c1input "смотрите также".toList = some 10 ∧
    pretiffy_data c1input = c1input.take 10 ∧
    c1input.take 10 ≠ c1input.take 0 := by
  decide

/-- C1 (amended): truncation matching is effectively case-sensitive on
the lowercase marker phrases: the sanitizer truncates at the last exact
occurrence of the first phrase, in priority order, that occurs exactly
in the text; a phrase occurring only in a different letter case is
skipped in favour of later phrases, and if no phrase occurs exactly the
text is returned unchanged (the case-insensitive membership pre-check
never changes the result). -/
theorem c1_amended_case_sensitive_truncation :
    ∀ t : List Char,
      pretiffy_data t = truncateSpecSensitive TARGET_WORDS (stripSvg t) := by
  intro t
  unfold pretiffy_data
  exact truncateLoop_eq_sensitive TARGET_WORDS (by decide) (stripSvg t)

/-- C4 (counterexample): block_name extraction replaces `/` with `-`
rather than stripping it (so the claim's "ab" comes out as "a-b"), and
on empty input block_name is the empty string rather than a
missing-heading failure — the extraction of metadata on empty input
fails, but through the absent library-path marker. -/
theorem c4_claim_counterexample :
    blockName "a/b\nrest".toList = "a-b".toList ∧
    spec_block_name_strip "a/b\nrest".toList = "ab".toList ∧
    blockName "a/b\nrest".toList ≠ spec_block_name_strip "a/b\nrest".toList ∧
    blockName [] = [] ∧
    get_block_metadata [] = none := by
  decide

theorem pyReplaceFuel_single_del (a : Char) :
    ∀ (t : List Char) (f : Nat), t.length ≤ f →
      pyReplaceFuel [a] [] f t = t.filter (fun c => !(c == a)) := by
  intro t
  induction t with
  | nil => intro f _; cases f <;> simp [pyReplaceFuel]
  | cons c rest ih =>
    intro f hf
    cases f with
    | zero => simp at hf
    | succ f =>
      have hf' : rest.length ≤ f := Nat.succ_le_succ_iff.mp (by simpa using hf)
      simp only [pyReplaceFuel]
      by_cases hac : a = c
      · have hchop : chopLit [a] (c :: rest) = some rest := by
          simp [chopLit, hac]
        rw [hchop]
        simp only [List.isEmpty, List.nil_append]
        rw [ih f hf']
        simp [List.filter_cons, hac]
      · have hchop : chopLit [a] (c :: rest) = none := by
          simp [chopLit, hac]
        rw [hchop, ih f hf']
        have : (c == a) = false := by
          simpa using fun h => hac h.symm
        simp [List.filter_cons, this]

theorem pyReplaceFuel_single_map (a b : Char) :
    ∀ (t : List Char) (f : Nat), t.length ≤ f →
      pyReplaceFuel [a] [b] f t = t.map (fun c => if c = a then b else c) := by
  intro t
  induction t with
  | nil => intro f _; cases f <;> simp [pyReplaceFuel]
  | cons c rest ih =>
    intro f hf
    cases f with
    | zero => simp at hf
    | succ f =>
      have hf' : rest.length ≤ f := Nat.succ_le_succ_iff.mp (by simpa using hf)
      simp only [pyReplaceFuel]
      by_cases hac : a = c
      · have hchop : chopLit [a] (c :: rest) = some rest := by
          simp [chopLit, hac]
        rw [hchop]
        simp only [List.isEmpty]
        rw [ih f hf']
        simp [List.map_cons, hac.symm]
      · have hchop : chopLit [a] (c :: rest) = none := by
          simp [chopLit, hac]
        rw [hchop, ih f hf']
        simp only [List.map_cons]
        rw [if_neg (fun h => hac h.symm)]

theorem pyReplace_del (t : List Char) (a : Char) :
    pyReplace t [a] [] = t.filter (fun c => !(c == a)) :=
  pyReplaceFuel_single_del a t t.length le_rfl

theorem pyReplace_map (t : List Char) (a b : Char) :
    pyReplace t [a] [b] = t.map (fun c => if c = a then b else c) :=
  pyReplaceFuel_single_map a b t t.length le_rfl

/-- C4 (amended): block_name takes the text before the first line
break, removes all `#` characters, replaces each `/` with `-`, and
trims surrounding whitespace; block_name itself never fails — on empty
input it is the empty string — and metadata extraction fails exactly
when the library-path marker search fails (a missing-metadata error,
not a missing-heading one). -/
theorem c4_amended_block_name :
    (∀ t : List Char, blockName t =
        pyStrip (((firstLine t).filter (fun c => !(c == '#'))).map
          (fun c => if c = '/' then '-' else c))) ∧
    blockName [] = [] ∧
    (∀ t : List Char, get_block_metadata t = none ↔ searchPath t = none) := by
  refine ⟨?_, by decide, ?_⟩
  · intro t
    unfold blockName
    rw [pyReplace_del, pyReplace_map]
  · intro t
    unfold get_block_metadata
    cases h : searchPath t <;> simp

/-- C5 (confirmed): the validator accepts a page exactly when its
case-folded text contains the literal phrase "путь в библиотеке" (the
spec's "path in library") and no configured blocked-library marker
occurs in it; the model is a pure function, matching "no side
effects". -/
theorem c5_validator_exact :
    ∀ (blocked : List (List Char)) (t : List Char),
      validate_page blocked t = true ↔
        (occursB (pyLower t) path_in_library = true ∧
         ∀ bl ∈ blocked, occursB (pyLower t) bl = false) := by
  intro blocked t
  simp only [validate_page]
  cases h1 : occursB (pyLower t) path_in_library with
  | false => simp
  | true =>
    cases h2 : blocked.any (fun b => occursB (pyLower t) b) with
    | true =>
      obtain ⟨bl, hmem, hocc⟩ := List.any_eq_true.mp h2
      simp only [if_true, if_false]
      constructor
      · intro hf; simp at hf
      · rintro ⟨-, hall⟩
        have := hall bl hmem
        rw [this] at hocc
        simp at hocc
    | false =>
      constructor
      · intro _
        refine ⟨rfl, fun bl hmem => ?_⟩
        by_contra hne
        have hx : occursB (pyLower t) bl = true := by
          revert hne; cases occursB (pyLower t) bl <;> simp
        have hy : blocked.any (fun b => occursB (pyLower t) b) = true :=
          List.any_eq_true.mpr ⟨bl, hmem, hx⟩
        rw [h2] at hy
        simp at hy
      · intro _
        simp

/-- C5 (witness): the validator applied to a concrete in-scope page
with no blocked libraries configured, through the characterisation. -/
theorem c5_validator_exact_witness :
    validate_page [] "Путь в библиотеке x".toList = true :=
  (c5_validator_exact [] _).mpr ⟨by decide, by decide⟩

/-- C6 (confirmed): on the spec's round-trip input (with the source's
Russian literal "Путь в библиотеке:<br>" in place of the spec's English
gloss "Path in library:<br>"), metadata extraction yields
block_name "Sum Block" and the pre-trim block_path "/Operations/Math "
with its trailing space, and persistence derives the file names by
replacing every `/` of the path with `.`, writing
documentation/.Operations.Math.json and documentation/.Operations.Math.md. -/
theorem c6_metadata_roundtrip :
    get_block_metadata c6input =
      some ⟨"Sum Block".toList, "/Operations/Math ".toList⟩ ∧
    json_filename "/Operations/Math ".toList =
      "documentation/.Operations.Math.json".toList ∧
    md_filename "/Operations/Math ".toList =
      "documentation/.Operations.Math.md".toList ∧
    save_md c6input true true =
      .ok ([.json "documentation/.Operations.Math.json".toList,
            .md "documentation/.Operations.Math.md".toList], true) := by
  refine ⟨by decide, by decide, by decide, ?_⟩
  rfl

/-- C7 (code bug): `__main__` constructs the downloader and runs `main`
without ever calling `set_blocked_libs`, so the blocked-library list in
effect for the entry-point run is the empty list from `__init__`.  A
page of the interfaces library — which the configured markers would
reject — passes validation under the entry-point configuration and is
persisted (`catch_and_convert` succeeds), contradicting the claim that
such pages are excluded from persistence in that run. -/
theorem c7_entry_point_blocking_dead :
    occursB (pyLower c7text) "/interfaces/".toList = true ∧
    validate_page set_blocked_libs_result c7text = false ∧
    validate_page entry_point_blocked_libs c7text = true ∧
    catch_and_convert entry_point_blocked_libs c7page = .ok true := by
  refine ⟨by decide, by decide, by decide, ?_⟩
  rfl

theorem gather_error_of_mem :
    ∀ (blocked : List (List Char)) (pages : List Page) (p : Page),
      p ∈ pages → catch_and_convert blocked p = .error .attributeError →
      ∃ e, gather blocked pages = .error e := by
  intro blocked pages
  induction pages with
  | nil => intro p hp _; cases hp
  | cons q rest ih =>
    intro p hp hc
    cases hq : catch_and_convert blocked q with
    | error e => exact ⟨e, by simp [gather, hq]⟩
    | ok b =>
      cases hp with
      | head =>
        rw [hq] at hc
        cases hc
      | tail _ hmem =>
        obtain ⟨e, he⟩ := ih p hmem hc
        exact ⟨e, by simp [gather, hq, he]⟩

/-- C2 (counterexample): a page whose converted Markdown lacks the
library-path marker makes `__get_block_metadata` raise an uncaught
`AttributeError`; with `asyncio.gather`'s default behaviour the await
in `main` re-raises it, so the final success/total counts (which would
be 1 of 2 here, since the other page succeeds on its own) are never
produced — the failure is not reduced to that page's boolean outcome. -/
theorem c2_claim_counterexample :
    catch_and_convert entry_point_blocked_libs badPage =
      .error .attributeError ∧
    catch_and_convert entry_point_blocked_libs goodPage = .ok true ∧
    gather_main entry_point_blocked_libs [badPage, goodPage] =
      .error .attributeError ∧
    ∀ c : Nat × Nat,
      gather_main entry_point_blocked_libs [badPage, goodPage] ≠ .ok c := by
  refine ⟨rfl, rfl, rfl, ?_⟩
  intro c h
  rw [show gather_main entry_point_blocked_libs [badPage, goodPage] =
        .error .attributeError from rfl] at h
  simp at h

/-- C2 (amended): a missing library-path marker is not contained in the
affected page's boolean outcome: the error escapes the page task, and
whenever any gathered page raises it, the whole gathering step yields
an error instead of the success/total counts; only the content-file
write failure is reduced to a page-local `false`. -/
theorem c2_amended_error_propagation :
    ∀ (blocked : List (List Char)) (pages : List Page) (p : Page),
      p ∈ pages → catch_and_convert blocked p = .error .attributeError →
      ∃ e, gather_main blocked pages = .error e := by
  intro blocked pages p hp hc
  obtain ⟨e, he⟩ := gather_error_of_mem blocked pages p hp hc
  exact ⟨e, by simp [gather_main, he]⟩

/-- C2 (witness): the amended propagation applied to the concrete
marker-less page. -/
theorem c2_amended_error_propagation_witness :
    ∃ e, gather_main entry_point_blocked_libs [badPage] = .error e :=
  c2_amended_error_propagation entry_point_blocked_libs [badPage] badPage
    (List.mem_singleton.mpr rfl) rfl

/-- C3 (counterexample): on a non-200 index fetch the run does not
hard-fail: `main` ignores `parse_links`' `False`, the stored link list
stays empty, zero page tasks are launched, and the run completes
normally, reporting counts 0 of 0. -/
theorem c3_claim_counterexample :
    idx404.status ≠ 200 ∧
    run_main entry_point_blocked_libs idx404 (fun _ => goodPage) =
      .ok (0, 0) := by
  exact ⟨by decide, rfl⟩

/-- C3 (amended): if the index fetch does not succeed, `parse_links`
returns `false` but `main` ignores that flag; the link list stays
empty, so no per-page task is launched and the orchestrator completes
normally reporting 0 successes out of 0 — the index fetch failure is
not run-fatal. -/
theorem c3_amended_index_failure :
    ∀ (blocked : List (List Char)) (idx : IndexFetch)
      (fetchPage : List Char → Page), idx.status ≠ 200 →
      (parse_links idx.status idx.hasArticle idx.links).1 = false ∧
      run_main blocked idx fetchPage = .ok (0, 0) := by
  intro blocked idx fetchPage h
  have hp : parse_links idx.status idx.hasArticle idx.links = (false, []) := by
    unfold parse_links
    rw [if_neg (fun hh => h hh.1)]
  refine ⟨by rw [hp], ?_⟩
  unfold run_main
  rw [hp]
  rfl

/-- C3 (witness): the amended behaviour at the concrete failed index
fetch. -/
theorem c3_amended_index_failure_witness :
    (parse_links idx404.status idx404.hasArticle idx404.links).1 = false ∧
    run_main entry_point_blocked_libs idx404 (fun _ => goodPage) =
      .ok (0, 0) :=
  c3_amended_index_failure entry_point_blocked_libs idx404 (fun _ => goodPage)
    (by decide)

theorem chopLit_append : ∀ p t : List Char, chopLit p (p ++ t) = some t := by
  intro p
  induction p with
  | nil => intro t; rfl
  | cons a ps ih => intro t; simp [chopLit, ih]

theorem chopLit_length :
    ∀ (p t r : List Char), chopLit p t = some r →
      p.length + r.length = t.length := by
  intro p
  induction p with
  | nil =>
    intro t r h
    cases h
    simp
  | cons a ps ih =>
    intro t r h
    cases t with
    | nil => cases h
    | cons c cs =>
      simp only [chopLit] at h
      split at h
      · have := ih cs r h
        simp only [List.length_cons]
        omega
      · cases h

theorem dropWhile_length_le (q : Char → Bool) :
    ∀ t : List Char, (t.dropWhile q).length ≤ t.length := by
  intro t
  induction t with
  | nil => simp
  | cons c rest ih =>
    cases hq : q c <;> simp [List.dropWhile_cons, hq]
    omega

theorem matchSvgAt_length (cs tail : List Char)
    (h : matchSvgAt cs = some tail) : tail.length < cs.length := by
  unfold matchSvgAt at h
  split at h
  · cases h
  · rename_i rest hd
    have hlen := chopLit_length svgPre cs rest hd
    split at h
    · cases h
    · split at h
      · cases h
      · rename_i t' x heq
        have hx := Option.some.inj h
        subst hx
        have h1 : (t' :: x).length ≤ rest.length := by
          rw [← heq]
          exact dropWhile_length_le _ rest
        have h2 : 0 < svgPre.length := by decide
        simp only [List.length_cons] at h1
        omega

theorem stripSvgF_irrel :
    ∀ (n : Nat) (t : List Char) (f : Nat), t.length ≤ n → t.length ≤ f →
      stripSvgF f t = stripSvgF t.length t := by
  intro n
  induction n with
  | zero =>
    intro t f h1 _
    have ht : t = [] := List.length_eq_zero.mp (Nat.le_zero.mp h1)
    subst ht
    cases f <;> rfl
  | succ n ih =>
    intro t f h1 h2
    cases t with
    | nil => cases f <;> rfl
    | cons c rest =>
      cases f with
      | zero => simp at h2
      | succ f =>
        have hr1 : rest.length ≤ n := by
          simp only [List.length_cons] at h1; omega
        have hr2 : rest.length ≤ f := by
          simp only [List.length_cons] at h2; omega
        show stripSvgF (f + 1) (c :: rest) = stripSvgF (rest.length + 1) (c :: rest)
        simp only [stripSvgF]
        cases hm : matchSvgAt (c :: rest) with
        | none =>
          show c :: stripSvgF f rest = c :: stripSvgF rest.length rest
          rw [ih rest f hr1 hr2]
        | some tail =>
          show stripSvgF f tail = stripSvgF rest.length tail
          have hlt : tail.length ≤ rest.length := by
            have := matchSvgAt_length (c :: rest) tail hm
            simp only [List.length_cons] at this
            omega
          rw [ih tail f (le_trans hlt hr1) (le_trans hlt hr2),
              ih tail rest.length (le_trans hlt hr1) hlt]

theorem stripSvg_cons_none (c : Char) (t : List Char)
    (h : matchSvgAt (c :: t) = none) :
    stripSvg (c :: t) = c :: stripSvg t := by
  show stripSvgF (t.length + 1) (c :: t) = c :: stripSvgF t.length t
  simp only [stripSvgF]
  rw [h]

theorem stripSvg_cons_some (c : Char) (t tail : List Char)
    (h : matchSvgAt (c :: t) = some tail) :
    stripSvg (c :: t) = stripSvg tail := by
  have hlt : tail.length ≤ t.length := by
    have := matchSvgAt_length (c :: t) tail h
    simp only [List.length_cons] at this
    omega
  show stripSvgF (t.length + 1) (c :: t) = stripSvg tail
  simp only [stripSvgF]
  rw [h]
  exact stripSvgF_irrel tail.length tail t.length le_rfl hlt

theorem matchSvgAt_cons_ne (c : Char) (t : List Char) (h : c ≠ '[') :
    matchSvgAt (c :: t) = none := by
  have hch : chopLit svgPre (c :: t) = none := by
    show chopLit ('[' :: "SVG Image](data:image/svg+xml;base64,".toList) (c :: t) = none
    simp only [chopLit]
    rw [if_neg (fun hh => h hh.symm)]
  unfold matchSvgAt
  rw [hch]

theorem takeWhile_middle (q : Char → Bool) :
    ∀ p : List Char, (∀ c ∈ p, q c = true) →
      ∀ y : Char, q y = false → ∀ t : List Char,
        (p ++ y :: t).takeWhile q = p := by
  intro p
  induction p with
  | nil =>
    intro _ y hy t
    simp [List.takeWhile_cons, hy]
  | cons a as ih =>
    intro hp y hy t
    have ha : q a = true := hp a (List.mem_cons_self a as)
    have has : ∀ c ∈ as, q c = true :=
      fun c hc => hp c (List.mem_cons_of_mem a hc)
    simp [List.takeWhile_cons, ha, ih has y hy t]

theorem dropWhile_middle (q : Char → Bool) :
    ∀ p : List Char, (∀ c ∈ p, q c = true) →
      ∀ y : Char, q y = false → ∀ t : List Char,
        (p ++ y :: t).dropWhile q = y :: t := by
  intro p
  induction p with
  | nil =>
    intro _ y hy t
    simp [List.dropWhile_cons, hy]
  | cons a as ih =>
    intro hp y hy t
    have ha : q a = true := hp a (List.mem_cons_self a as)
    have has : ∀ c ∈ as, q c = true :=
      fun c hc => hp c (List.mem_cons_of_mem a hc)
    simp [List.dropWhile_cons, ha, ih has y hy t]

theorem matchSvgAt_block (p b : List Char) (hne : p ≠ [])
    (hp : ∀ c ∈ p, c ≠ ')') :
    matchSvgAt (svgPre ++ (p ++ ')' :: b)) = some b := by
  have hq : ∀ c ∈ p, (fun c => !(c == ')')) c = true := by
    intro c hc
    simpa using hp c hc
  have hy : (fun c => !(c == ')')) ')' = false := by simp
  have hpe : p.isEmpty = false := by
    cases p with
    | nil => exact absurd rfl hne
    | cons _ _ => rfl
  have hstep : matchSvgAt (svgPre ++ (p ++ ')' :: b)) =
      (if ((p ++ ')' :: b).takeWhile (fun c => !(c == ')'))).isEmpty then none
       else
         match (p ++ ')' :: b).dropWhile (fun c => !(c == ')')) with
         | [] => none
         | _ :: tail => some tail) := by
    unfold matchSvgAt
    rw [chopLit_append]
  rw [hstep, takeWhile_middle _ p hq ')' hy b, dropWhile_middle _ p hq ')' hy b]
  simp [hpe]

theorem stripSvg_all_ne :
    ∀ t : List Char, (∀ c ∈ t, c ≠ '[') → stripSvg t = t := by
  intro t
  induction t with
  | nil => intro _; rfl
  | cons c rest ih =>
    intro h
    rw [stripSvg_cons_none c rest
          (matchSvgAt_cons_ne c rest (h c (List.mem_cons_self c rest))),
        ih (fun x hx => h x (List.mem_cons_of_mem c hx))]

theorem stripSvg_append_left :
    ∀ (a u : List Char), (∀ c ∈ a, c ≠ '[') →
      stripSvg (a ++ u) = a ++ stripSvg u := by
  intro a
  induction a with
  | nil => intro u _; simp
  | cons c as ih =>
    intro u h
    have hc : c ≠ '[' := h c (List.mem_cons_self c as)
    show stripSvg (c :: (as ++ u)) = c :: (as ++ stripSvg u)
    rw [stripSvg_cons_none c (as ++ u) (matchSvgAt_cons_ne c (as ++ u) hc),
        ih u (fun x hx => h x (List.mem_cons_of_mem c hx))]

/-- C8 (confirmed): the binary-payload strip removes an embedded inline
SVG image data block — `[SVG Image](data:image/svg+xml;base64,` followed
by a non-empty payload of non-`)` characters and the closing `)` — of
any payload length, leaving the surrounding text unaltered.  The
bracket-freeness side conditions keep the surrounding text from
containing further matches of the removing pattern, which the pattern
would also delete. -/
theorem c8_svg_payload_strip :
    ∀ a payload b : List Char,
      (∀ c ∈ a, c ≠ '[') → (∀ c ∈ b, c ≠ '[') →
      payload ≠ [] → (∀ c ∈ payload, c ≠ ')') →
      stripSvg (a ++ svgBlockOf payload ++ b) = a ++ b := by
  intro a p b ha hb hne hp
  have hassoc : a ++ svgBlockOf p ++ b = a ++ (svgPre ++ (p ++ ')' :: b)) := by
    simp [svgBlockOf]
  rw [hassoc, stripSvg_append_left a _ ha]
  have hmatch : matchSvgAt (svgPre ++ (p ++ ')' :: b)) = some b :=
    matchSvgAt_block p b hne hp
  have hcons : svgPre ++ (p ++ ')' :: b) =
      '[' :: ("SVG Image](data:image/svg+xml;base64,".toList ++ (p ++ ')' :: b)) := by
    simp [svgPre]
  rw [hcons] at hmatch
  rw [hcons, stripSvg_cons_some _ _ b hmatch, stripSvg_all_ne b hb]

/-- C8 (witness): the strip at a concrete surrounded payload. -/
theorem c8_svg_payload_strip_witness :
    stripSvg ("text ".toList ++ svgBlockOf "iVBORw0K".toList ++ " more".toList) =
      "text ".toList ++ " more".toList :=
  c8_svg_payload_strip "text ".toList "iVBORw0K".toList " more".toList
    (by decide) (by decide) (by decide) (by decide)

theorem noSvg_head (c : Char) (t : List Char) (h : noSvg (c :: t) = true) :
    matchSvgAt (c :: t) = none := by
  have hm : (0 : Nat) ∈ List.range ((c :: t).length) :=
    List.mem_range.mpr (by simp)
  have := List.all_eq_true.mp h 0 hm
  simpa [Option.isNone_iff_eq_none] using this

theorem noSvg_tail (c : Char) (t : List Char) (h : noSvg (c :: t) = true) :
    noSvg t = true := by
  unfold noSvg
  apply List.all_eq_true.mpr
  intro i hi
  have hi' : i + 1 ∈ List.range ((c :: t).length) := by
    have := List.mem_range.mp hi
    exact List.mem_range.mpr (by simp; omega)
  have := List.all_eq_true.mp h (i + 1) hi'
  simpa using this

theorem stripSvg_of_noSvg : ∀ t : List Char, noSvg t = true → stripSvg t = t := by
  intro t
  induction t with
  | nil => intro _; rfl
  | cons c rest ih =>
    intro h
    rw [stripSvg_cons_none c rest (noSvg_head c rest h),
        ih (noSvg_tail c rest h)]

theorem truncateLoop_id :
    ∀ (ws : List (List Char)) (cs : List Char),
      (∀ w ∈ ws, occursB (pyLower cs) w = false) →
      truncateLoop ws cs = cs := by
  intro ws
  induction ws with
  | nil => intro cs _; rfl
  | cons w ws ih =>
    intro cs h
    have hw := h w (List.mem_cons_self w ws)
    simp only [truncateLoop, hw]
    simpa using ih cs (fun x hx => h x (List.mem_cons_of_mem w hx))

/-- C9 (confirmed): on text in which the SVG removing pattern matches
nowhere and no boilerplate marker phrase occurs (in the lowered text,
as the code checks), the sanitizer returns the text unchanged — in
particular it is idempotent on such already-sanitized text. -/
theorem c9_sanitizer_identity :
    ∀ t : List Char, noSvg t = true →
      (∀ w ∈ TARGET_WORDS, occursB (pyLower t) w = false) →
      pretiffy_data t = t := by
  intro t h1 h2
  unfold pretiffy_data
  rw [stripSvg_of_noSvg t h1]
  exact truncateLoop_id TARGET_WORDS t h2

/-- C9 (witness): the identity at a concrete clean text. -/
theorem c9_sanitizer_identity_witness :
    noSvg "hello".toList = true ∧
    (∀ w ∈ TARGET_WORDS, occursB (pyLower "hello".toList) w = false) ∧
    pretiffy_data "hello".toList = "hello".toList :=
  ⟨by decide, by decide,
   c9_sanitizer_identity "hello".toList (by decide) (by decide)⟩

/-- C10 (confirmed): whenever metadata extraction succeeds on the
sanitized Markdown (and the derived stem is non-empty, which every
extracted path yields), the metadata `.json` write event precedes the
`.md` write attempt; if the content-file write fails the page outcome
is the boolean `false` while the already-produced metadata write event
remains — per-page persistence is not atomic on error. -/
theorem c10_metadata_before_content :
    ∀ (mt : List Char) (m : BlockMetadata),
      get_block_metadata (pretiffy_data mt) = some m →
      (stemOf m.block_path).isEmpty = false →
      save_md mt true false =
        .ok ([.json (json_filename m.block_path)], false) ∧
      save_md mt true true =
        .ok ([.json (json_filename m.block_path),
              .md (md_filename m.block_path)], true) := by
  intro mt m hm hs
  constructor <;> simp [save_md, save_block_metadata, hm, hs]

/-- C10 (witness): the write ordering at a concrete page. -/
theorem c10_metadata_before_content_witness :
    get_block_metadata (pretiffy_data c10md) = some c10meta ∧
    (stemOf c10meta.block_path).isEmpty = false ∧
    save_md c10md true false =
      .ok ([.json (json_filename c10meta.block_path)], false) :=
  have h1 : get_block_metadata (pretiffy_data c10md) = some c10meta := by decide
  have h2 : (stemOf c10meta.block_path).isEmpty = false := by decide
  ⟨h1, h2, (c10_metadata_before_content c10md c10meta h1 h2).1⟩
